import Mathlib

/-!
# netbweb: the snapshot browser handlers

A shallow embedding of `handlers.go`: the HTTP handlers `dashboard`,
`listDates`, `hostBackup`, `showBackupDate` and `diffBackup`, written as pure
functions of the request, the `configstore.Store` they are given and the
library calls they make (`time.Parse`, `Time.Format`, `Time.String`,
`DiffMain`, `DiffPrettyHtml`).

Conventions of the embedding

* `time.Time` is an instant on an integer time line; `t.Before(u)` is `t < u`.
* `configstore.Store` is an interface of another package: it is a parameter,
  a record of the three methods the handlers call.  A call returns either a
  value or an error (`Except`).
* A handler either writes a page (`Response.ok`, status 200), answers through
  `http.Error(w, "error :(", code)` (`Response.httpError code`), or stops in a
  Go runtime error because a slice index is out of range
  (`Response.outOfRange`).  Writing to the `ResponseWriter` and JSON encoding
  are taken to succeed.
* The values handed to `json.Encoder` / `mustache.RenderFileInLayout` are the
  handler's result; the rendering itself is outside the embedding.
-/

namespace Netbweb

/-! ## Data model -/

/-- An instant (`time.Time`), as a position on an integer time line. -/
abbrev Time := Int

/-- The struct `configstore.Entry`, with the three fields the handlers use. -/
structure Entry where
  Name : String
  Date : Time
  Content : String
deriving DecidableEq, Repr

/-- The interface `configstore.Store`, as seen from the handlers.  `Get` takes
the entry by pointer and may fill any field, so it returns the entry. -/
structure Store where
  Names : Except String (List String)
  Dates : String → Except String (List Time)
  Get : Entry → Except String Entry

/-- The calls into package `time` with the layout `file.DefaultDateFormat`, and
the two calls into `diffmatchpatch`.  None of them is code of this program. -/
structure Lib where
  /-- The call `time.Parse(file.DefaultDateFormat, s)`; `none` when `err != nil`. -/
  parse : String → Option Time
  /-- The call `t.Format(file.DefaultDateFormat)`. -/
  format : Time → String
  /-- The call `t.String()`. -/
  string : Time → String
  /-- The text after the nil test of `dashboardAgo` (`time.Since`, hours, `Sprintf`). -/
  agoText : Time → Int → Int → String
  /-- The text after the nil test of `dashboardAgoStatus`. -/
  agoStatusText : Time → Int → Int → String
  /-- The call `dmp.DiffMain(a, b, true)` followed by `dmp.DiffPrettyHtml`. -/
  diffHtml : String → String → String

/-- The parts of `*http.Request` the handlers read. -/
structure Request where
  /-- The value of `req.Header.Get("Accept")`. -/
  accept : String
  /-- The map `mux.Vars(req)`; a missing key reads as the empty string. -/
  vars : String → String

/-- What a handler does with the `ResponseWriter`. -/
inductive Response (α : Type) where
  | ok (data : α)
  | httpError (code : Nat)
  | outOfRange
deriving DecidableEq, Repr

/-- The HTTP status a response carries; a handler that stops in a runtime
error writes none. -/
def Response.status {α : Type} : Response α → Option Nat
  | .ok _ => some 200
  | .httpError code => some code
  | .outOfRange => none

/-- The class of a status code: 4 for 400..499, 5 for 500..599. -/
def statusClass (code : Nat) : Nat := code / 100

/-- Go slice indexing `xs[idx]` with an `int` index: `none` is the runtime
error "index out of range". -/
def index (xs : List Time) (idx : Int) : Option Time :=
  if 0 ≤ idx ∧ idx < (xs.length : Int) then xs.get? idx.toNat else none

/-! ## dashboard -/

/-- The anonymous struct appended in the JSON branch of `dashboard`. -/
structure DashboardJSONEntry where
  Hostname : String
  LastBackup : Option Time
deriving DecidableEq, Repr

/-- The anonymous struct appended in the HTML branch of `dashboard`. -/
structure DashboardEntry where
  Hostname : String
  LastBackup : Option Time
  Ago : String
  AgoStatus : String
deriving DecidableEq, Repr

/-- The value `dashboard` hands to the encoder or to the template. -/
inductive DashboardData where
  | json (data : List DashboardJSONEntry)
  | html (Entries : List DashboardEntry)
deriving DecidableEq, Repr

/-- Function `dashboardAgo`. -/
def dashboardAgo (lib : Lib) (t : Option Time) (warning danger : Int) : String :=
  match t with
  | none => "No backup"
  | some t => lib.agoText t warning danger

/-- Function `dashboardAgoStatus`. -/
def dashboardAgoStatus (lib : Lib) (t : Option Time) (warning danger : Int) : String :=
  match t with
  | none => "default"
  | some t => lib.agoStatusText t warning danger

/-- The pointer `date` of `dashboard`: `&dates[0]` when `len(dates) > 0`, else nil. -/
def lastBackup (dates : List Time) : Option Time :=
  if h : 0 < dates.length then some (dates.get ⟨0, h⟩) else none

/-- The loop of the JSON branch of `dashboard`, `data` being the slice built so far. -/
def dashboardJSONLoop (store : Store) : List String → List DashboardJSONEntry → List DashboardJSONEntry
  | [], data => data
  | name :: names, data =>
    match store.Dates name with
    | .error _ => dashboardJSONLoop store names data
    | .ok dates =>
      dashboardJSONLoop store names
        (data ++ [{ Hostname := name, LastBackup := lastBackup dates }])

/-- The loop of the HTML branch of `dashboard`. -/
def dashboardHTMLLoop (lib : Lib) (store : Store) : List String → List DashboardEntry → List DashboardEntry
  | [], entries => entries
  | name :: names, entries =>
    match store.Dates name with
    | .error _ => dashboardHTMLLoop lib store names entries
    | .ok dates =>
      dashboardHTMLLoop lib store names
        (entries ++ [{ Hostname := name, LastBackup := lastBackup dates,
                       Ago := dashboardAgo lib (lastBackup dates) 24 72,
                       AgoStatus := dashboardAgoStatus lib (lastBackup dates) 24 72 }])

/-- Handler `dashboard`. -/
def dashboard (lib : Lib) (store : Store) (req : Request) : Response DashboardData :=
  match store.Names with
  | .error _ => .httpError 500
  | .ok names =>
    if req.accept = "application/json" then
      .ok (.json (dashboardJSONLoop store names []))
    else
      .ok (.html (dashboardHTMLLoop lib store names []))

/-! ## listDates -/

/-- One element of `data.Dates` in the HTML branch of `listDates`
(fields `String` and `URL`). -/
structure DateLink where
  Str : String
  URL : String
deriving DecidableEq, Repr

/-- The value `listDates` hands to the encoder or to the template. -/
inductive DatesData where
  | json (Hostname : String) (Dates : List String)
  | html (Hostname : String) (Dates : List DateLink)
deriving DecidableEq, Repr

/-- The loop of the JSON branch of `listDates`. -/
def listDatesJSONLoop (lib : Lib) : List Time → List String → List String
  | [], dates => dates
  | date :: rest, dates => listDatesJSONLoop lib rest (dates ++ [lib.format date])

/-- The loop of the HTML branch of `listDates`. -/
def listDatesHTMLLoop (lib : Lib) : List Time → List DateLink → List DateLink
  | [], dates => dates
  | date :: rest, dates =>
    listDatesHTMLLoop lib rest (dates ++ [{ Str := lib.string date, URL := lib.format date }])

/-- Handler `listDates`. -/
def listDates (lib : Lib) (store : Store) (req : Request) : Response DatesData :=
  match store.Dates (req.vars "hostname") with
  | .error _ => .httpError 500
  | .ok datesStore =>
    if req.accept = "application/json" then
      .ok (.json (req.vars "hostname") (listDatesJSONLoop lib datesStore []))
    else
      .ok (.html (req.vars "hostname") (listDatesHTMLLoop lib datesStore []))

/-! ## hostBackup -/

/-- The struct with fields `Hostname`, `Date`, `Content` that `hostBackup` and
`showBackupDate` hand to the encoder or to the template. -/
structure EntryPage where
  Hostname : String
  Date : String
  Content : String
deriving DecidableEq, Repr

/-- Handler `hostBackup`. -/
def hostBackup (lib : Lib) (store : Store) (req : Request) : Response EntryPage :=
  match lib.parse (req.vars "date") with
  | none => .httpError 500
  | some t =>
    match store.Get { Name := req.vars "hostname", Date := t, Content := "" } with
    | .error _ => .httpError 500
    | .ok e =>
      if req.accept = "application/json" then
        .ok { Hostname := e.Name, Date := lib.format e.Date, Content := e.Content }
      else
        .ok { Hostname := req.vars "hostname", Date := lib.string t, Content := e.Content }

/-! ## showBackupDate -/

/-- The loop `for i, date := range datesStore { if t.Before(date) { idx = i - 1 } }`
of `showBackupDate`, from position `i` on with the current value of `idx`. -/
def scanLoop (t : Time) : List Time → Nat → Int → Int
  | [], _, idx => idx
  | date :: rest, i, idx => scanLoop t rest (i + 1) (if t < date then (i : Int) - 1 else idx)

/-- The index `showBackupDate` computes: `var idx int`, the loop, then
`if idx == -1 { idx = 0 }`. -/
def scanIdx (t : Time) (datesStore : List Time) : Int :=
  let idx := scanLoop t datesStore 0 0
  if idx = -1 then 0 else idx

/-- The date `showBackupDate` puts in the entry it fetches: `datesStore[idx]`. -/
def selectDate (t : Time) (datesStore : List Time) : Option Time :=
  index datesStore (scanIdx t datesStore)

/-- Handler `showBackupDate`. -/
def showBackupDate (lib : Lib) (store : Store) (req : Request) : Response EntryPage :=
  match lib.parse (req.vars "date") with
  | none => .httpError 500
  | some t =>
    match store.Dates (req.vars "hostname") with
    | .error _ => .httpError 500
    | .ok datesStore =>
      match selectDate t datesStore with
      | none => .outOfRange
      | some d =>
        match store.Get { Name := req.vars "hostname", Date := d, Content := "" } with
        | .error _ => .httpError 500
        | .ok e =>
          .ok { Hostname := req.vars "hostname", Date := lib.string d, Content := e.Content }

/-! ## diffBackup -/

/-- The struct `diffBackup` hands to the template. -/
structure DiffPage where
  Hostname : String
  Date1 : Time
  Date2 : Time
  Diff : String
deriving DecidableEq, Repr

/-- Handler `diffBackup`. -/
def diffBackup (lib : Lib) (store : Store) (req : Request) : Response DiffPage :=
  match lib.parse (req.vars "date1") with
  | none => .httpError 500
  | some t1 =>
    match lib.parse (req.vars "date2") with
    | none => .httpError 500
    | some t2 =>
      match store.Get { Name := req.vars "hostname", Date := t1, Content := "" } with
      | .error _ => .httpError 500
      | .ok e1 =>
        match store.Get { Name := req.vars "hostname", Date := t2, Content := "" } with
        | .error _ => .httpError 500
        | .ok e2 =>
          .ok { Hostname := req.vars "hostname", Date1 := t1, Date2 := t2,
                Diff := lib.diffHtml e1.Content e2.Content }


/-! ## A concrete archive

The scenario of the specification: host `web01` with snapshots at 2024-03-10
and 2024-03-01 (newest first), next to a host whose dates come back oldest
first, a host without snapshots and a host whose dates cannot be read. -/

/-- The instant 2024-03-15T00:00:00Z, in seconds since 1970. -/
def mar15 : Time := 1710460800
/-- The instant 2024-03-10T00:00:00Z. -/
def mar10 : Time := 1710028800
/-- The instant 2024-03-05T00:00:00Z. -/
def mar05 : Time := 1709596800
/-- The instant 2024-03-01T00:00:00Z. -/
def mar01 : Time := 1709251200
/-- The instant 2024-02-01T00:00:00Z. -/
def feb01 : Time := 1706745600

/-- A date codec that knows the four instants from 2024-02-01 to 2024-03-10 and
rejects every other text. -/
def demoLib : Lib where
  parse := fun s =>
    if s = "2024-03-10T00:00:00" then some mar10
    else if s = "2024-03-05T00:00:00" then some mar05
    else if s = "2024-03-01T00:00:00" then some mar01
    else if s = "2024-02-01T00:00:00" then some feb01
    else none
  format := fun t =>
    if t = mar10 then "2024-03-10T00:00:00"
    else if t = mar05 then "2024-03-05T00:00:00"
    else if t = mar01 then "2024-03-01T00:00:00"
    else if t = feb01 then "2024-02-01T00:00:00"
    else "unknown"
  string := fun t =>
    if t = mar10 then "2024-03-10 00:00:00 +0000 UTC"
    else if t = mar05 then "2024-03-05 00:00:00 +0000 UTC"
    else if t = mar01 then "2024-03-01 00:00:00 +0000 UTC"
    else if t = feb01 then "2024-02-01 00:00:00 +0000 UTC"
    else "unknown"
  agoText := fun _ _ _ => "5 days ago"
  agoStatusText := fun _ _ _ => "danger"
  diffHtml := fun a b => a ++ " / " ++ b

/-- A store with four hosts. -/
def demoStore : Store where
  Names := .ok ["web01", "db01", "new01", "sw01"]
  Dates := fun host =>
    if host = "web01" then .ok [mar10, mar01]
    else if host = "db01" then .ok [mar01, mar10]
    else if host = "new01" then .ok []
    else .error "cannot read the host directory"
  Get := fun e =>
    if e.Date = mar10 then .ok { e with Content := "version 2" }
    else if e.Date = mar01 then .ok { e with Content := "version 1" }
    else .error "no such entry"

/-- A store that lists the two snapshots of `web01` and fails every `Get`. -/
def failingStore : Store where
  Names := .ok ["web01"]
  Dates := fun _ => .ok [mar10, mar01]
  Get := fun _ => .error "read error"

/-- A request on the routes with one date: `/hosts/{hostname}`,
`/hosts/{hostname}/dates/{date}` and `/hosts/{hostname}/on/{date}`. -/
def dateRequest (accept host date : String) : Request where
  accept := accept
  vars := fun k => if k = "hostname" then host else if k = "date" then date else ""

/-- A request on the route `/hosts/{hostname}/diff/{date1}/{date2}`. -/
def diffRequest (host date1 date2 : String) : Request where
  accept := "text/html"
  vars := fun k =>
    if k = "hostname" then host else if k = "date1" then date1
    else if k = "date2" then date2 else ""

/-! ## Properties used to state the claims -/

/-- Newest first with pairwise distinct entries: `t1 > t2 > ... > tn`. -/
def NewestFirst (ds : List Time) : Prop := ds.Pairwise (fun a b => b < a)

/-- The entry `d` of `ds` holds the largest timestamp that is not after `t`. -/
def IsNearestAtOrBefore (ds : List Time) (t d : Time) : Prop :=
  d ∈ ds ∧ d ≤ t ∧ ∀ x ∈ ds, x ≤ t → x ≤ d

/-- Descending order, newest first, equal neighbours allowed. -/
def Descending (ds : List Time) : Prop := ds.Pairwise (fun a b => b ≤ a)

/-- A date listing is in descending order: it is the rendering, text by text,
of a descending sequence of instants. -/
def ListingDescending (lib : Lib) (listing : List String) : Prop :=
  ∃ ts, Descending ts ∧ listing = ts.map lib.format

/-- The date texts `listDates` lists, in the order it lists them. -/
def DatesData.urls : DatesData → List String
  | .json _ dates => dates
  | .html _ dates => dates.map (fun d => d.URL)

/-- The rows of a dashboard listing: host name and `LastBackup`. -/
def DashboardData.rows : DashboardData → List (String × Option Time)
  | .json data => data.map (fun e => (e.Hostname, e.LastBackup))
  | .html entries => entries.map (fun e => (e.Hostname, e.LastBackup))

/-- Whether `store.Dates name` returns without an error. -/
def datesOk (store : Store) (name : String) : Bool :=
  match store.Dates name with
  | .ok _ => true
  | .error _ => false

/-- The row a host contributes to the dashboard, if any. -/
def dashboardRow (store : Store) (name : String) : Option (String × Option Time) :=
  match store.Dates name with
  | .ok dates => some (name, dates.head?)
  | .error _ => none

/-! ## The scan of showBackupDate -/

theorem scanLoop_of_none_before (t : Time) :
    ∀ (ds : List Time) (i : Nat) (idx : Int), (∀ d ∈ ds, ¬ t < d) → scanLoop t ds i idx = idx := by
  intro ds
  induction ds with
  | nil => intro i idx _; rfl
  | cons d rest ih =>
    intro i idx h
    have hd : ¬ t < d := h d (List.mem_cons_self d rest)
    have hrest : ∀ x ∈ rest, ¬ t < x := fun x hx => h x (List.mem_cons_of_mem d hx)
    simp only [scanLoop, if_neg hd]
    exact ih (i + 1) idx hrest

theorem scanLoop_of_all_before (t : Time) :
    ∀ (ds : List Time) (i : Nat) (idx : Int), ds ≠ [] → (∀ d ∈ ds, t < d) →
      scanLoop t ds i idx = (i : Int) + (ds.length : Int) - 2 := by
  intro ds
  induction ds with
  | nil => intro i idx hne; exact absurd rfl hne
  | cons d rest ih =>
    intro i idx _ h
    have hd : t < d := h d (List.mem_cons_self d rest)
    have hrest : ∀ x ∈ rest, t < x := fun x hx => h x (List.mem_cons_of_mem d hx)
    simp only [scanLoop, if_pos hd]
    cases rest with
    | nil => simp only [scanLoop, List.length_cons, List.length_nil]; push_cast; ring
    | cons e more =>
      rw [ih (i + 1) ((i : Int) - 1) (List.cons_ne_nil e more) hrest]
      simp only [List.length_cons]
      push_cast
      ring

theorem scanLoop_range (t : Time) :
    ∀ (ds : List Time) (i : Nat) (idx : Int),
      scanLoop t ds i idx = idx ∨
        ((i : Int) - 1 ≤ scanLoop t ds i idx ∧
          scanLoop t ds i idx ≤ (i : Int) + (ds.length : Int) - 2) := by
  intro ds
  induction ds with
  | nil => intro i idx; exact Or.inl rfl
  | cons d rest ih =>
    intro i idx
    simp only [scanLoop, List.length_cons]
    by_cases hd : t < d
    · rw [if_pos hd]
      right
      rcases ih (i + 1) ((i : Int) - 1) with h | ⟨h1, h2⟩
      · rw [h]; constructor <;> push_cast <;> omega
      · push_cast at h1 h2 ⊢
        constructor <;> omega
    · rw [if_neg hd]
      rcases ih (i + 1) idx with h | ⟨h1, h2⟩
      · exact Or.inl h
      · right
        push_cast at h1 h2 ⊢
        constructor <;> omega

theorem scanIdx_nonneg (t : Time) (ds : List Time) : 0 ≤ scanIdx t ds := by
  unfold scanIdx
  rcases scanLoop_range t ds 0 0 with h | ⟨h1, _⟩
  · simp [h]
  · simp only
    split
    · exact le_refl 0
    · push_cast at h1; omega

theorem scanIdx_lt_length (t : Time) (ds : List Time) (hne : ds ≠ []) :
    scanIdx t ds < (ds.length : Int) := by
  have hlen : 0 < ds.length := List.length_pos.mpr hne
  unfold scanIdx
  rcases scanLoop_range t ds 0 0 with h | ⟨_, h2⟩
  · simp [h]; omega
  · simp only
    split
    · omega
    · push_cast at h2; omega

theorem index_zero (xs : List Time) : index xs 0 = xs.head? := by
  cases xs <;> simp [index]

theorem index_mem (xs : List Time) (idx : Int) (h0 : 0 ≤ idx) (h1 : idx < (xs.length : Int)) :
    ∃ d ∈ xs, index xs idx = some d := by
  have hlt : idx.toNat < xs.length := by omega
  refine ⟨xs.get ⟨idx.toNat, hlt⟩, List.get_mem xs _ _, ?_⟩
  simp [index, h0, h1, List.getElem?_eq_getElem hlt]

theorem index_natCast (xs : List Time) (k : Nat) (h : k < xs.length) :
    index xs (k : Int) = some (xs.get ⟨k, h⟩) := by
  have h1 : (k : Int) < (xs.length : Int) := by exact_mod_cast h
  unfold index
  rw [if_pos ⟨Int.natCast_nonneg k, h1⟩, Int.toNat_natCast, List.get?_eq_get h]

theorem index_none_of_nil (idx : Int) : index [] idx = none := by
  simp [index]

theorem selectDate_mem (t : Time) (ds : List Time) (hne : ds ≠ []) :
    ∃ d ∈ ds, selectDate t ds = some d :=
  index_mem ds (scanIdx t ds) (scanIdx_nonneg t ds) (scanIdx_lt_length t ds hne)


theorem scanLoop_hit (t : Time) :
    ∀ (ds : List Time) (i : Nat) (idx : Int),
      (scanLoop t ds i idx = idx ∧ ∀ d ∈ ds, ¬ t < d) ∨
        ∃ j, ∃ h : j < ds.length, t < ds.get ⟨j, h⟩ ∧
          scanLoop t ds i idx = (i : Int) + (j : Int) - 1 := by
  intro ds
  induction ds with
  | nil => intro i idx; exact Or.inl ⟨rfl, by simp⟩
  | cons d rest ih =>
    intro i idx
    by_cases hd : t < d
    · right
      simp only [scanLoop, if_pos hd]
      rcases ih (i + 1) ((i : Int) - 1) with ⟨h, _⟩ | ⟨j, hj, hlt, hres⟩
      · exact ⟨0, by simp, by simpa using hd, by rw [h]; simp⟩
      · refine ⟨j + 1, by simpa using hj, by simpa using hlt, ?_⟩
        rw [hres]; push_cast; ring
    · simp only [scanLoop, if_neg hd]
      rcases ih (i + 1) idx with ⟨h, hnone⟩ | ⟨j, hj, hlt, hres⟩
      · left
        refine ⟨h, ?_⟩
        intro x hx
        rcases List.mem_cons.mp hx with rfl | hx
        · exact hd
        · exact hnone x hx
      · right
        refine ⟨j + 1, by simpa using hj, by simpa using hlt, ?_⟩
        rw [hres]; push_cast; ring

/-- In a newest-first list whose newest entry is after `t`, the entry the
lookup selects is after `t` as well: it is never the entry at or before `t`. -/
theorem selectDate_after_of_lt_head (t t1 : Time) (rest : List Time)
    (hs : NewestFirst (t1 :: rest)) (ht : t < t1) :
    ∃ d, selectDate t (t1 :: rest) = some d ∧ t < d := by
  rcases scanLoop_hit t (t1 :: rest) 0 0 with ⟨_, hnone⟩ | ⟨j, hj, hlt, hres⟩
  · exact absurd ht (hnone t1 (List.mem_cons_self _ _))
  · cases j with
    | zero =>
      refine ⟨t1, ?_, ht⟩
      have hidx : scanIdx t (t1 :: rest) = 0 := by simp [scanIdx, hres]
      rw [selectDate, hidx, index_zero]
      rfl
    | succ k =>
      have hk : k < (t1 :: rest).length := by omega
      have hidx : scanIdx t (t1 :: rest) = (k : Int) := by
        unfold scanIdx
        simp only [hres]
        push_cast
        split <;> omega
      refine ⟨(t1 :: rest).get ⟨k, hk⟩, ?_, ?_⟩
      · rw [selectDate, hidx]
        exact index_natCast (t1 :: rest) k hk
      · have hstep := (List.pairwise_iff_get.mp hs) ⟨k, hk⟩ ⟨k + 1, hj⟩ (by simp [Fin.lt_def])
        exact lt_trans hlt hstep

/-! ## The loops of dashboard and listDates -/

theorem lastBackup_eq_head (dates : List Time) : lastBackup dates = dates.head? := by
  cases dates <;> simp [lastBackup]

theorem dashboardJSONLoop_rows (store : Store) :
    ∀ (names : List String) (data : List DashboardJSONEntry),
      (dashboardJSONLoop store names data).map (fun e => (e.Hostname, e.LastBackup)) =
        data.map (fun e => (e.Hostname, e.LastBackup)) ++ names.filterMap (dashboardRow store) := by
  intro names
  induction names with
  | nil => intro data; simp [dashboardJSONLoop]
  | cons name names ih =>
    intro data
    cases hd : store.Dates name with
    | error msg => simp [dashboardJSONLoop, dashboardRow, hd, ih]
    | ok dates => simp [dashboardJSONLoop, dashboardRow, hd, ih, lastBackup_eq_head]

theorem dashboardHTMLLoop_rows (lib : Lib) (store : Store) :
    ∀ (names : List String) (entries : List DashboardEntry),
      (dashboardHTMLLoop lib store names entries).map (fun e => (e.Hostname, e.LastBackup)) =
        entries.map (fun e => (e.Hostname, e.LastBackup)) ++ names.filterMap (dashboardRow store) := by
  intro names
  induction names with
  | nil => intro entries; simp [dashboardHTMLLoop]
  | cons name names ih =>
    intro entries
    cases hd : store.Dates name with
    | error msg => simp [dashboardHTMLLoop, dashboardRow, hd, ih]
    | ok dates => simp [dashboardHTMLLoop, dashboardRow, hd, ih, lastBackup_eq_head]

theorem dashboard_rows (lib : Lib) (store : Store) (req : Request) (names : List String)
    (hn : store.Names = .ok names) :
    ∃ data, dashboard lib store req = .ok data ∧
      data.rows = names.filterMap (dashboardRow store) := by
  unfold dashboard
  rw [hn]
  by_cases hj : req.accept = "application/json"
  · refine ⟨.json (dashboardJSONLoop store names []), by simp [hj], ?_⟩
    simp [DashboardData.rows, dashboardJSONLoop_rows]
  · refine ⟨.html (dashboardHTMLLoop lib store names []), by simp [hj], ?_⟩
    simp [DashboardData.rows, dashboardHTMLLoop_rows]

theorem filterMap_dashboardRow_hosts (store : Store) (names : List String) :
    (names.filterMap (dashboardRow store)).map Prod.fst = names.filter (datesOk store) := by
  induction names with
  | nil => rfl
  | cons name names ih =>
    cases hd : store.Dates name with
    | error msg => simp [List.filterMap_cons, List.filter_cons, dashboardRow, datesOk, hd, ih]
    | ok dates => simp [List.filterMap_cons, List.filter_cons, dashboardRow, datesOk, hd, ih]

theorem listDatesJSONLoop_eq (lib : Lib) :
    ∀ (ds : List Time) (dates : List String),
      listDatesJSONLoop lib ds dates = dates ++ ds.map lib.format := by
  intro ds
  induction ds with
  | nil => intro dates; simp [listDatesJSONLoop]
  | cons d rest ih => intro dates; simp [listDatesJSONLoop, ih]

theorem listDatesHTMLLoop_urls (lib : Lib) :
    ∀ (ds : List Time) (dates : List DateLink),
      (listDatesHTMLLoop lib ds dates).map (fun d => d.URL) =
        dates.map (fun d => d.URL) ++ ds.map lib.format := by
  intro ds
  induction ds with
  | nil => intro dates; simp [listDatesHTMLLoop]
  | cons d rest ih => intro dates; simp [listDatesHTMLLoop, ih]

theorem listDatesHTMLLoop_eq (lib : Lib) :
    ∀ (ds : List Time) (dates : List DateLink),
      listDatesHTMLLoop lib ds dates =
        dates ++ ds.map (fun d => { Str := lib.string d, URL := lib.format d }) := by
  intro ds
  induction ds with
  | nil => intro dates; simp [listDatesHTMLLoop]
  | cons d rest ih => intro dates; simp [listDatesHTMLLoop, ih]

theorem dashboardRow_eq_some (store : Store) (name : String) (row : String × Option Time) :
    dashboardRow store name = some row ↔
      ∃ dates, store.Dates name = .ok dates ∧ row = (name, dates.head?) := by
  unfold dashboardRow
  cases hd : store.Dates name with
  | error msg => simp
  | ok dates =>
    constructor
    · intro h
      exact ⟨dates, rfl, (Option.some.inj h).symm⟩
    · rintro ⟨dates2, h1, h2⟩
      cases h1
      rw [h2]

theorem listDates_urls (lib : Lib) (store : Store) (req : Request) (ds : List Time)
    (hd : store.Dates (req.vars "hostname") = .ok ds) :
    ∃ data, listDates lib store req = .ok data ∧ data.urls = ds.map lib.format := by
  unfold listDates
  rw [hd]
  by_cases hj : req.accept = "application/json"
  · refine ⟨.json (req.vars "hostname") (listDatesJSONLoop lib ds []), by simp [hj], ?_⟩
    simp [DatesData.urls, listDatesJSONLoop_eq]
  · refine ⟨.html (req.vars "hostname") (listDatesHTMLLoop lib ds []), by simp [hj], ?_⟩
    simp [DatesData.urls, listDatesHTMLLoop_urls]

/-! ## Nearest-date lookup (showBackupDate) -/

/-- C1 (as amended): for a newest-first list of distinct timestamps
`t1 > t2 > ... > tn` and a requested timestamp `t` at or after the newest entry
`t1`, the lookup of `showBackupDate` selects `t1`, the entry holding the
largest `ti` with `ti ≤ t`. -/
theorem showBackupDate_selects_newest_when_not_before_it (t t1 : Time) (rest : List Time)
    (hs : NewestFirst (t1 :: rest)) (ht : t1 ≤ t) :
    selectDate t (t1 :: rest) = some t1 ∧ IsNearestAtOrBefore (t1 :: rest) t t1 := by
  have hle : ∀ d ∈ t1 :: rest, d ≤ t1 := by
    intro d hd
    rcases List.mem_cons.mp hd with h | h
    · exact le_of_eq h
    · exact le_of_lt (List.rel_of_pairwise_cons hs h)
  have hnone : ∀ d ∈ t1 :: rest, ¬ t < d := fun d hd => not_lt.mpr (le_trans (hle d hd) ht)
  have hloop : scanLoop t (t1 :: rest) 0 0 = 0 := scanLoop_of_none_before t _ 0 0 hnone
  refine ⟨?_, List.mem_cons_self t1 rest, ht, fun x hx _ => hle x hx⟩
  simp [selectDate, scanIdx, hloop, index_zero]

/-- C1 (witness of the amended claim): the list [2024-03-10, 2024-03-01] and
the date 2024-03-15. -/
theorem showBackupDate_selects_newest_when_not_before_it_witness :
    NewestFirst [mar10, mar01] ∧ mar10 ≤ mar15 ∧
      selectDate mar15 [mar10, mar01] = some mar10 ∧
      IsNearestAtOrBefore [mar10, mar01] mar15 mar10 :=
  have hs : NewestFirst [mar10, mar01] := by unfold NewestFirst; decide
  have ht : mar10 ≤ mar15 := by decide
  ⟨hs, ht, showBackupDate_selects_newest_when_not_before_it mar15 mar10 [mar01] hs ht⟩

/-- C1 (counterexample): with the list [2024-03-10, 2024-03-01] and the date
2024-03-05 the lookup selects 2024-03-10, although the largest entry not after
the date is 2024-03-01. -/
theorem showBackupDate_between_entries_selects_newer :
    NewestFirst [mar10, mar01] ∧ mar01 ≤ mar05 ∧
      selectDate mar05 [mar10, mar01] = some mar10 ∧
      IsNearestAtOrBefore [mar10, mar01] mar05 mar01 ∧
      ¬ IsNearestAtOrBefore [mar10, mar01] mar05 mar10 ∧
      showBackupDate demoLib demoStore (dateRequest "text/html" "web01" "2024-03-05T00:00:00") =
        .ok { Hostname := "web01", Date := "2024-03-10 00:00:00 +0000 UTC",
              Content := "version 2" } := by
  refine ⟨by unfold NewestFirst; decide, by decide, by decide, ?_, ?_, by rfl⟩
  · unfold IsNearestAtOrBefore; decide
  · unfold IsNearestAtOrBefore; decide

/-- C2 (as amended): for a non-empty timestamp list and a requested timestamp
`t` strictly older than every entry, `showBackupDate` reports no error for the
date: the lookup selects an entry of the list (one after `t`) and the handler
answers with whatever fetching that entry gives, an error only when the
store's `Get` fails. -/
theorem showBackupDate_older_than_all_fetches_an_entry (lib : Lib) (store : Store)
    (req : Request) (t : Time) (ds : List Time)
    (hp : lib.parse (req.vars "date") = some t)
    (hd : store.Dates (req.vars "hostname") = .ok ds)
    (hne : ds ≠ []) (hall : ∀ d ∈ ds, t < d) :
    ∃ d ∈ ds, t < d ∧ selectDate t ds = some d ∧
      showBackupDate lib store req =
        (match store.Get { Name := req.vars "hostname", Date := d, Content := "" } with
          | .error _ => .httpError 500
          | .ok e =>
            .ok { Hostname := req.vars "hostname", Date := lib.string d, Content := e.Content }) := by
  obtain ⟨d, hmem, hsel⟩ := selectDate_mem t ds hne
  refine ⟨d, hmem, hall d hmem, hsel, ?_⟩
  simp only [showBackupDate, hp, hd, hsel]

/-- C2 (witness of the amended claim): host `web01` and the date 2024-02-01. -/
theorem showBackupDate_older_than_all_fetches_an_entry_witness :
    demoLib.parse ((dateRequest "text/html" "web01" "2024-02-01T00:00:00").vars "date") = some feb01 ∧
      demoStore.Dates ((dateRequest "text/html" "web01" "2024-02-01T00:00:00").vars "hostname") =
        .ok [mar10, mar01] ∧
      ∃ d ∈ [mar10, mar01], feb01 < d ∧ selectDate feb01 [mar10, mar01] = some d ∧
        showBackupDate demoLib demoStore (dateRequest "text/html" "web01" "2024-02-01T00:00:00") =
          (match demoStore.Get
              { Name := (dateRequest "text/html" "web01" "2024-02-01T00:00:00").vars "hostname",
                Date := d, Content := "" } with
            | .error _ => .httpError 500
            | .ok e =>
              .ok { Hostname := (dateRequest "text/html" "web01" "2024-02-01T00:00:00").vars "hostname",
                    Date := demoLib.string d, Content := e.Content }) :=
  ⟨rfl, rfl,
    showBackupDate_older_than_all_fetches_an_entry demoLib demoStore
      (dateRequest "text/html" "web01" "2024-02-01T00:00:00") feb01 [mar10, mar01] rfl rfl
      (by decide) (by decide)⟩

/-- C2 (counterexample): host `web01` holds [2024-03-10, 2024-03-01]; asked
for 2024-02-01, older than both, `showBackupDate` does not fail but answers
with the snapshot of 2024-03-10. -/
theorem showBackupDate_older_than_all_does_not_fail :
    demoStore.Dates "web01" = .ok [mar10, mar01] ∧ NewestFirst [mar10, mar01] ∧
      (∀ d ∈ [mar10, mar01], feb01 < d) ∧
      showBackupDate demoLib demoStore (dateRequest "text/html" "web01" "2024-02-01T00:00:00") =
        .ok { Hostname := "web01", Date := "2024-03-10 00:00:00 +0000 UTC",
              Content := "version 2" } ∧
      (showBackupDate demoLib demoStore
        (dateRequest "text/html" "web01" "2024-02-01T00:00:00")).status = some 200 := by
  refine ⟨rfl, by unfold NewestFirst; decide, by decide, by rfl, by rfl⟩

/-- C3 (the code at the failing input): host `web01` holds
[2024-03-10, 2024-03-01]; asked for 2024-03-01, a stored date, the lookup of
`showBackupDate` selects 2024-03-10 and the page shows that snapshot, while
`hostBackup` for the same date fetches the snapshot of 2024-03-01. -/
theorem showBackupDate_exact_date_selects_other_entry :
    demoStore.Dates "web01" = .ok [mar10, mar01] ∧ NewestFirst [mar10, mar01] ∧
      mar01 ∈ [mar10, mar01] ∧
      selectDate mar01 [mar10, mar01] = some mar10 ∧
      showBackupDate demoLib demoStore (dateRequest "text/html" "web01" "2024-03-01T00:00:00") =
        .ok { Hostname := "web01", Date := "2024-03-10 00:00:00 +0000 UTC",
              Content := "version 2" } ∧
      hostBackup demoLib demoStore (dateRequest "text/html" "web01" "2024-03-01T00:00:00") =
        .ok { Hostname := "web01", Date := "2024-03-01 00:00:00 +0000 UTC",
              Content := "version 1" } := by
  refine ⟨rfl, by unfold NewestFirst; decide, by decide, by decide, by rfl, by rfl⟩

/-- C9 (as amended): for a list of one or two timestamps and a requested
timestamp `t` strictly older than every entry, the index scan of
`showBackupDate` ends with index 0, so the snapshot it fetches is the first of
the list, the newest one of a newest-first list. -/
theorem scanIdx_older_than_all_short_list (t : Time) (ds : List Time)
    (hne : ds ≠ []) (hlen : ds.length ≤ 2) (hall : ∀ d ∈ ds, t < d) :
    scanIdx t ds = 0 ∧ selectDate t ds = ds.head? := by
  have hloop := scanLoop_of_all_before t ds 0 0 hne hall
  have hpos : 0 < ds.length := List.length_pos.mpr hne
  have hidx : scanIdx t ds = 0 := by
    unfold scanIdx
    simp only [hloop]
    split
    · rfl
    · push_cast at *; omega
  exact ⟨hidx, by rw [selectDate, hidx, index_zero]⟩

/-- C9 (witness of the amended claim): the list [2024-03-10, 2024-03-01] and
the date 2024-02-01. -/
theorem scanIdx_older_than_all_short_list_witness :
    [mar10, mar01] ≠ [] ∧ [mar10, mar01].length ≤ 2 ∧ (∀ d ∈ [mar10, mar01], feb01 < d) ∧
      scanIdx feb01 [mar10, mar01] = 0 ∧
      selectDate feb01 [mar10, mar01] = [mar10, mar01].head? :=
  ⟨by decide, by decide, by decide,
    scanIdx_older_than_all_short_list feb01 [mar10, mar01] (by decide) (by decide) (by decide)⟩

/-- C9 (counterexample): with the three entries [2024-03-10, 2024-03-05,
2024-03-01] and the date 2024-02-01, older than all of them, the scan ends with
index 1 and the entry fetched is 2024-03-05, not the newest one. -/
theorem scanIdx_older_than_all_three_entries :
    NewestFirst [mar10, mar05, mar01] ∧ (∀ d ∈ [mar10, mar05, mar01], feb01 < d) ∧
      scanLoop feb01 [mar10, mar05, mar01] 0 0 = 1 ∧
      scanIdx feb01 [mar10, mar05, mar01] = 1 ∧
      selectDate feb01 [mar10, mar05, mar01] = some mar05 ∧ mar05 ≠ mar10 := by
  refine ⟨by unfold NewestFirst; decide, by decide, by decide, by decide, by decide, by decide⟩

/-- C10: whatever the order of the timestamp list the store returns and
whatever the requested timestamp, the index computed by the scan of
`showBackupDate` is a valid index of the list exactly when the list is not
empty; for an empty list (and only then) the access `datesStore[idx]` is out of
range and the handler stops there instead of answering with an error. -/
theorem showBackupDate_index_valid_iff_nonempty (lib : Lib) (store : Store) (req : Request)
    (t : Time) (ds : List Time)
    (hp : lib.parse (req.vars "date") = some t)
    (hd : store.Dates (req.vars "hostname") = .ok ds) :
    ((0 ≤ scanIdx t ds ∧ scanIdx t ds < (ds.length : Int)) ↔ ds ≠ []) ∧
      (selectDate t ds = none ↔ ds = []) ∧
      (showBackupDate lib store req = .outOfRange ↔ ds = []) := by
  have hvalid : (0 ≤ scanIdx t ds ∧ scanIdx t ds < (ds.length : Int)) ↔ ds ≠ [] := by
    refine ⟨?_, fun hne => ⟨scanIdx_nonneg t ds, scanIdx_lt_length t ds hne⟩⟩
    rintro ⟨h0, h1⟩ rfl
    simp at h1
    omega
  have hsel : selectDate t ds = none ↔ ds = [] := by
    constructor
    · intro hnone
      by_contra hne
      obtain ⟨d, _, hsome⟩ := selectDate_mem t ds hne
      rw [hnone] at hsome
      exact Option.noConfusion hsome
    · rintro rfl
      exact index_none_of_nil _
  refine ⟨hvalid, hsel, ?_⟩
  constructor
  · intro hout
    by_contra hne
    obtain ⟨d, _, hsome⟩ := selectDate_mem t ds hne
    simp only [showBackupDate, hp, hd, hsome] at hout
    cases hg : store.Get { Name := req.vars "hostname", Date := d, Content := "" } <;>
      simp [hg] at hout
  · intro hnil
    simp only [showBackupDate, hp, hd, hsel.mpr hnil]

/-- C10 (witness): host `new01` has an empty timestamp list. -/
theorem showBackupDate_index_valid_iff_nonempty_witness :
    demoLib.parse ((dateRequest "text/html" "new01" "2024-03-05T00:00:00").vars "date") = some mar05 ∧
      demoStore.Dates ((dateRequest "text/html" "new01" "2024-03-05T00:00:00").vars "hostname") =
        .ok [] ∧
      (((0 ≤ scanIdx mar05 [] ∧ scanIdx mar05 [] < (([] : List Time).length : Int)) ↔
          ([] : List Time) ≠ []) ∧
        (selectDate mar05 [] = none ↔ ([] : List Time) = []) ∧
        (showBackupDate demoLib demoStore
            (dateRequest "text/html" "new01" "2024-03-05T00:00:00") = .outOfRange ↔
          ([] : List Time) = [])) :=
  ⟨rfl, rfl,
    showBackupDate_index_valid_iff_nonempty demoLib demoStore
      (dateRequest "text/html" "new01" "2024-03-05T00:00:00") mar05 [] rfl rfl⟩

/-! ## Timestamp listing (listDates) -/

/-- C4 (as amended): for every host and every sequence of timestamps the
store's `Dates` call returns, in any order, `listDates` lists the timestamps in
exactly the order `Dates` returned them, in the JSON and in the HTML branch: it
does not sort.  So the listing is in descending order, newest first, for every
sequence that `Dates` returns in descending order. -/
theorem listDates_keeps_store_order (lib : Lib) (store : Store) (req : Request)
    (ds : List Time)
    (hd : store.Dates (req.vars "hostname") = .ok ds) :
    ∃ data, listDates lib store req = .ok data ∧
      data =
        (if req.accept = "application/json" then
          .json (req.vars "hostname") (ds.map lib.format)
        else
          .html (req.vars "hostname")
            (ds.map (fun d => { Str := lib.string d, URL := lib.format d }))) ∧
      data.urls = ds.map lib.format ∧
      (Descending ds → ListingDescending lib data.urls) := by
  obtain ⟨data, hdata, hurls⟩ := listDates_urls lib store req ds hd
  refine ⟨data, hdata, ?_, hurls, fun hdesc => ⟨ds, hdesc, hurls⟩⟩
  have hval : listDates lib store req =
      .ok (if req.accept = "application/json" then
          .json (req.vars "hostname") (ds.map lib.format)
        else
          .html (req.vars "hostname")
            (ds.map (fun d => { Str := lib.string d, URL := lib.format d }))) := by
    unfold listDates
    rw [hd]
    by_cases hj : req.accept = "application/json"
    · simp [hj, listDatesJSONLoop_eq]
    · simp [hj, listDatesHTMLLoop_eq]
  rw [hval] at hdata
  exact (Response.ok.inj hdata).symm

/-- C4 (witness of the amended claim): host `web01`, whose dates the store
returns newest first, in the JSON branch. -/
theorem listDates_keeps_store_order_witness :
    demoStore.Dates ((dateRequest "application/json" "web01" "").vars "hostname") =
        .ok [mar10, mar01] ∧
      Descending [mar10, mar01] ∧
      ∃ data, listDates demoLib demoStore (dateRequest "application/json" "web01" "") = .ok data ∧
        data = .json "web01" ["2024-03-10T00:00:00", "2024-03-01T00:00:00"] ∧
        data.urls = [mar10, mar01].map demoLib.format ∧
        ListingDescending demoLib data.urls := by
  have hdesc : Descending [mar10, mar01] := by unfold Descending; decide
  obtain ⟨data, hdata, hval, hurls, hlist⟩ :=
    listDates_keeps_store_order demoLib demoStore (dateRequest "application/json" "web01" "")
      [mar10, mar01] rfl
  exact ⟨rfl, hdesc, data, hdata, hval.trans (by rfl), hurls, hlist hdesc⟩

/-- C4 (counterexample): for host `db01` the store returns the dates oldest
first, [2024-03-01, 2024-03-10]; `listDates` lists them in that order, which
is not descending. -/
theorem listDates_does_not_sort :
    demoStore.Dates "db01" = .ok [mar01, mar10] ∧
      listDates demoLib demoStore (dateRequest "application/json" "db01" "") =
        .ok (.json "db01" ["2024-03-01T00:00:00", "2024-03-10T00:00:00"]) ∧
      listDates demoLib demoStore (dateRequest "text/html" "db01" "") =
        .ok (.html "db01"
          [{ Str := "2024-03-01 00:00:00 +0000 UTC", URL := "2024-03-01T00:00:00" },
           { Str := "2024-03-10 00:00:00 +0000 UTC", URL := "2024-03-10T00:00:00" }]) ∧
      ¬ ListingDescending demoLib ["2024-03-01T00:00:00", "2024-03-10T00:00:00"] := by
  refine ⟨rfl, by rfl, by rfl, ?_⟩
  rintro ⟨ts, hdesc, heq⟩
  have h01 : ∀ a : Time, demoLib.format a = "2024-03-01T00:00:00" → a = mar01 := by
    intro a ha
    simp only [demoLib] at ha
    split_ifs at ha with h1 h2 h3 h4
    · exact absurd ha (by decide)
    · exact absurd ha (by decide)
    · exact h3
    · exact absurd ha (by decide)
    · exact absurd ha (by decide)
  have h10 : ∀ a : Time, demoLib.format a = "2024-03-10T00:00:00" → a = mar10 := by
    intro a ha
    simp only [demoLib] at ha
    split_ifs at ha with h1 h2 h3 h4
    · exact h1
    · exact absurd ha (by decide)
    · exact absurd ha (by decide)
    · exact absurd ha (by decide)
    · exact absurd ha (by decide)
  match ts, hdesc, heq with
  | [], _, heq => simp at heq
  | [_], _, heq => simp at heq
  | a :: b :: c :: rest, _, heq => simp at heq
  | [a, b], hdesc, heq =>
    simp only [List.map_cons, List.map_nil, List.cons.injEq, and_true] at heq
    have ha := h01 a heq.1.symm
    have hb := h10 b heq.2.symm
    subst ha hb
    have hle : mar10 ≤ mar01 := List.rel_of_pairwise_cons hdesc (List.mem_singleton_self _)
    exact absurd hle (by decide)

/-! ## dashboard -/

/-- C6 (as amended): whenever the host enumeration succeeds, `dashboard`
returns a successful listing, in the JSON and in the HTML branch; the hosts it
lists are, in order, the enumerated hosts whose `Dates` call succeeds, so a
host whose `Dates` call fails is left out of the listing. -/
theorem dashboard_skips_hosts_whose_dates_fail (lib : Lib) (store : Store) (req : Request)
    (names : List String) (hn : store.Names = .ok names) :
    ∃ data, dashboard lib store req = .ok data ∧
      data.rows.map Prod.fst = names.filter (datesOk store) := by
  obtain ⟨data, hdata, hrows⟩ := dashboard_rows lib store req names hn
  exact ⟨data, hdata, by rw [hrows, filterMap_dashboardRow_hosts]⟩

/-- C6 (witness of the amended claim): the four hosts of the concrete store. -/
theorem dashboard_skips_hosts_whose_dates_fail_witness :
    demoStore.Names = .ok ["web01", "db01", "new01", "sw01"] ∧
      ∃ data, dashboard demoLib demoStore (dateRequest "application/json" "" "") = .ok data ∧
        data.rows.map Prod.fst = ["web01", "db01", "new01", "sw01"].filter (datesOk demoStore) :=
  ⟨rfl,
    dashboard_skips_hosts_whose_dates_fail demoLib demoStore
      (dateRequest "application/json" "" "") ["web01", "db01", "new01", "sw01"] rfl⟩

/-- C6 (counterexample): the host enumeration succeeds and the `Dates` call
fails for host `sw01`; `dashboard` answers with status 200 and a listing of the
three other hosts, in both branches. -/
theorem dashboard_swallows_dates_failure :
    demoStore.Names = .ok ["web01", "db01", "new01", "sw01"] ∧
      demoStore.Dates "sw01" = .error "cannot read the host directory" ∧
      dashboard demoLib demoStore (dateRequest "application/json" "" "") =
        .ok (.json [{ Hostname := "web01", LastBackup := some mar10 },
                    { Hostname := "db01", LastBackup := some mar01 },
                    { Hostname := "new01", LastBackup := none }]) ∧
      dashboard demoLib demoStore (dateRequest "text/html" "" "") =
        .ok (.html [{ Hostname := "web01", LastBackup := some mar10,
                      Ago := "5 days ago", AgoStatus := "danger" },
                    { Hostname := "db01", LastBackup := some mar01,
                      Ago := "5 days ago", AgoStatus := "danger" },
                    { Hostname := "new01", LastBackup := none,
                      Ago := "No backup", AgoStatus := "default" }]) ∧
      (dashboard demoLib demoStore (dateRequest "application/json" "" "")).status = some 200 := by
  refine ⟨rfl, rfl, by rfl, by rfl, by rfl⟩

/-- C8: whenever the host enumeration succeeds, `dashboard` answers, in the
JSON branch and in the HTML branch, with one row for each enumerated host whose
`Dates` call succeeds, in order, and in every row the reported `LastBackup` is
the first element of the timestamp sequence the store returned for that host
when the sequence is not empty, and is absent when it is empty. -/
theorem dashboard_lastBackup_is_first_date (lib : Lib) (store : Store) (req : Request)
    (names : List String) (hn : store.Names = .ok names) :
    ∃ data, dashboard lib store req = .ok data ∧
      data.rows = names.filterMap (dashboardRow store) ∧
      (∀ name ∈ names, ∀ dates, store.Dates name = .ok dates →
        (name, dates.head?) ∈ data.rows) ∧
      (∀ row ∈ data.rows, ∃ dates, row.1 ∈ names ∧ store.Dates row.1 = .ok dates ∧
        (dates = [] → row.2 = none) ∧ (∀ d rest, dates = d :: rest → row.2 = some d)) := by
  obtain ⟨data, hdata, hrows⟩ := dashboard_rows lib store req names hn
  refine ⟨data, hdata, hrows, ?_, ?_⟩
  · intro name hname dates hd
    rw [hrows]
    exact List.mem_filterMap.mpr
      ⟨name, hname, (dashboardRow_eq_some store name _).mpr ⟨dates, hd, rfl⟩⟩
  · intro row hrow
    rw [hrows] at hrow
    obtain ⟨name, hname, hsome⟩ := List.mem_filterMap.mp hrow
    obtain ⟨dates, hd, hrow2⟩ := (dashboardRow_eq_some store name row).mp hsome
    subst hrow2
    refine ⟨dates, hname, hd, ?_, ?_⟩
    · rintro rfl; rfl
    · rintro d rest rfl; rfl

/-- C8 (witness): the concrete store, in the JSON branch and in the HTML
branch: three rows, with the first date of `web01` and of `db01` and no date
for `new01`. -/
theorem dashboard_lastBackup_is_first_date_witness :
    demoStore.Names = .ok ["web01", "db01", "new01", "sw01"] ∧
      (∃ data, dashboard demoLib demoStore (dateRequest "application/json" "" "") = .ok data ∧
        data.rows = [("web01", some mar10), ("db01", some mar01), ("new01", none)]) ∧
      (∃ data, dashboard demoLib demoStore (dateRequest "text/html" "" "") = .ok data ∧
        data.rows = [("web01", some mar10), ("db01", some mar01), ("new01", none)]) := by
  obtain ⟨dj, hj, hjrows, _⟩ :=
    dashboard_lastBackup_is_first_date demoLib demoStore (dateRequest "application/json" "" "")
      ["web01", "db01", "new01", "sw01"] rfl
  obtain ⟨dh, hh, hhrows, _⟩ :=
    dashboard_lastBackup_is_first_date demoLib demoStore (dateRequest "text/html" "" "")
      ["web01", "db01", "new01", "sw01"] rfl
  exact ⟨rfl, ⟨dj, hj, hjrows.trans (by rfl)⟩, ⟨dh, hh, hhrows.trans (by rfl)⟩⟩

/-! ## Malformed dates -/

/-- C7 (as amended): a request to `hostBackup`, `showBackupDate` or
`diffBackup` whose date text fails to parse is answered with status 500, in the
500 class; it is the same status the three handlers give for every storage
failure (a failing `Dates`, a failing `Get`). -/
theorem malformed_date_gives_status_500 (lib : Lib) (store : Store) (req : Request) :
    (lib.parse (req.vars "date") = none →
        hostBackup lib store req = .httpError 500 ∧
        showBackupDate lib store req = .httpError 500) ∧
      (lib.parse (req.vars "date1") = none ∨ lib.parse (req.vars "date2") = none →
        diffBackup lib store req = .httpError 500) ∧
      (Response.httpError 500 : Response EntryPage).status = some 500 ∧
      (Response.httpError 500 : Response DiffPage).status = some 500 ∧
      statusClass 500 = 5 ∧
      (∀ t msg, lib.parse (req.vars "date") = some t →
        store.Get { Name := req.vars "hostname", Date := t, Content := "" } = .error msg →
        hostBackup lib store req = .httpError 500) ∧
      (∀ t msg, lib.parse (req.vars "date") = some t →
        store.Dates (req.vars "hostname") = .error msg →
        showBackupDate lib store req = .httpError 500) ∧
      (∀ t ds d msg, lib.parse (req.vars "date") = some t →
        store.Dates (req.vars "hostname") = .ok ds → selectDate t ds = some d →
        store.Get { Name := req.vars "hostname", Date := d, Content := "" } = .error msg →
        showBackupDate lib store req = .httpError 500) ∧
      (∀ t1 t2 msg, lib.parse (req.vars "date1") = some t1 →
        lib.parse (req.vars "date2") = some t2 →
        store.Get { Name := req.vars "hostname", Date := t1, Content := "" } = .error msg →
        diffBackup lib store req = .httpError 500) ∧
      (∀ t1 t2 e1 msg, lib.parse (req.vars "date1") = some t1 →
        lib.parse (req.vars "date2") = some t2 →
        store.Get { Name := req.vars "hostname", Date := t1, Content := "" } = .ok e1 →
        store.Get { Name := req.vars "hostname", Date := t2, Content := "" } = .error msg →
        diffBackup lib store req = .httpError 500) := by
  refine ⟨?_, ?_, rfl, rfl, rfl, ?_, ?_, ?_, ?_, ?_⟩
  · intro hp
    exact ⟨by simp [hostBackup, hp], by simp [showBackupDate, hp]⟩
  · rintro (hp | hp)
    · simp [diffBackup, hp]
    · cases h1 : lib.parse (req.vars "date1") <;> simp [diffBackup, hp, h1]
  · intro t msg hp hg
    simp [hostBackup, hp, hg]
  · intro t msg hp hd
    simp [showBackupDate, hp, hd]
  · intro t ds d msg hp hd hsel hg
    simp [showBackupDate, hp, hd, hsel, hg]
  · intro t1 t2 msg hp1 hp2 hg
    simp [diffBackup, hp1, hp2, hg]
  · intro t1 t2 e1 msg hp1 hp2 hg1 hg2
    simp [diffBackup, hp1, hp2, hg1, hg2]

/-- C7 (witness of the amended claim): a date text in another format on the
routes of host `web01`, and for each handler a well-formed request on which
the store fails. -/
theorem malformed_date_gives_status_500_witness :
    demoLib.parse ((dateRequest "text/html" "web01" "10 March 2024").vars "date") = none ∧
      demoLib.parse ((diffRequest "web01" "2024-03-01T00:00:00" "10 March 2024").vars "date2") =
        none ∧
      hostBackup demoLib demoStore (dateRequest "text/html" "web01" "10 March 2024") =
        .httpError 500 ∧
      showBackupDate demoLib demoStore (dateRequest "text/html" "web01" "10 March 2024") =
        .httpError 500 ∧
      diffBackup demoLib demoStore (diffRequest "web01" "2024-03-01T00:00:00" "10 March 2024") =
        .httpError 500 ∧
      hostBackup demoLib demoStore (dateRequest "text/html" "web01" "2024-03-05T00:00:00") =
        .httpError 500 ∧
      showBackupDate demoLib demoStore (dateRequest "text/html" "sw01" "2024-03-05T00:00:00") =
        .httpError 500 ∧
      showBackupDate demoLib failingStore (dateRequest "text/html" "web01" "2024-03-05T00:00:00") =
        .httpError 500 ∧
      diffBackup demoLib demoStore (diffRequest "web01" "2024-03-05T00:00:00" "2024-03-01T00:00:00") =
        .httpError 500 ∧
      diffBackup demoLib demoStore (diffRequest "web01" "2024-03-10T00:00:00" "2024-03-05T00:00:00") =
        .httpError 500 :=
  have hp : demoLib.parse ((dateRequest "text/html" "web01" "10 March 2024").vars "date") = none :=
    by rfl
  have hq : demoLib.parse
      ((diffRequest "web01" "2024-03-01T00:00:00" "10 March 2024").vars "date2") = none := by rfl
  ⟨hp, hq,
    ((malformed_date_gives_status_500 demoLib demoStore
      (dateRequest "text/html" "web01" "10 March 2024")).1 hp).1,
    ((malformed_date_gives_status_500 demoLib demoStore
      (dateRequest "text/html" "web01" "10 March 2024")).1 hp).2,
    (malformed_date_gives_status_500 demoLib demoStore
      (diffRequest "web01" "2024-03-01T00:00:00" "10 March 2024")).2.1 (Or.inr hq),
    (malformed_date_gives_status_500 demoLib demoStore
      (dateRequest "text/html" "web01" "2024-03-05T00:00:00")).2.2.2.2.2.1
      mar05 "no such entry" (by rfl) (by rfl),
    (malformed_date_gives_status_500 demoLib demoStore
      (dateRequest "text/html" "sw01" "2024-03-05T00:00:00")).2.2.2.2.2.2.1
      mar05 "cannot read the host directory" (by rfl) (by rfl),
    (malformed_date_gives_status_500 demoLib failingStore
      (dateRequest "text/html" "web01" "2024-03-05T00:00:00")).2.2.2.2.2.2.2.1
      mar05 [mar10, mar01] mar10 "read error" (by rfl) (by rfl) (by decide) (by rfl),
    (malformed_date_gives_status_500 demoLib demoStore
      (diffRequest "web01" "2024-03-05T00:00:00" "2024-03-01T00:00:00")).2.2.2.2.2.2.2.2.1
      mar05 mar01 "no such entry" (by rfl) (by rfl) (by rfl),
    (malformed_date_gives_status_500 demoLib demoStore
      (diffRequest "web01" "2024-03-10T00:00:00" "2024-03-05T00:00:00")).2.2.2.2.2.2.2.2.2
      mar10 mar05 { Name := "web01", Date := mar10, Content := "version 2" } "no such entry"
      (by rfl) (by rfl) (by rfl) (by rfl)⟩

/-- C7 (counterexample): the date text "10 March 2024" does not parse;
`hostBackup`, `showBackupDate` and `diffBackup` answer it with status 500,
which is not in the 400 class and is the status `hostBackup` also gives when
the store has no entry for a well-formed date. -/
theorem malformed_date_is_not_status_400 :
    demoLib.parse "10 March 2024" = none ∧
      (hostBackup demoLib demoStore
        (dateRequest "text/html" "web01" "10 March 2024")).status = some 500 ∧
      (showBackupDate demoLib demoStore
        (dateRequest "text/html" "web01" "10 March 2024")).status = some 500 ∧
      (diffBackup demoLib demoStore
        (diffRequest "web01" "10 March 2024" "2024-03-01T00:00:00")).status = some 500 ∧
      statusClass 500 ≠ 4 ∧
      demoLib.parse "2024-03-05T00:00:00" = some mar05 ∧
      demoStore.Get { Name := "web01", Date := mar05, Content := "" } = .error "no such entry" ∧
      (hostBackup demoLib demoStore
        (dateRequest "text/html" "web01" "2024-03-05T00:00:00")).status = some 500 := by
  refine ⟨by rfl, by rfl, by rfl, by rfl, by decide, by rfl, by rfl, by rfl⟩

end Netbweb
